import Mathlib

/-!
Verification of the dogstatsd UDP listener and of process discovery.

Shallow embedding of

* `pkg/dogstatsd/listeners/udp.go` (`NewUDPListener`, `UDPListener.Listen`,
  `UDPListener.Stop`), namespace `Listeners`;
* `pkg/procdiscovery/process.go` (`DiscoverIntegrations`,
  `retrieveIntegrations`), namespace `Procdiscovery`.

Effects are explicit.  Every call the Go code makes on a collaborator (the
packet pool, the socket, the packet buffer, the logger) is recorded, in program
order, as an `Event`; the two `expvar.Int` counters and the pool are state.
The results the operating system hands back (bind result, `SetReadBuffer`
result, the result of each blocking `ReadFrom`) are inputs.
-/

namespace Listeners

/-! ## Strings and 64 bit counters -/

/-- Go `strings.HasSuffix(s, suffix)`. -/
def HasSuffix (s suffix : String) : Bool :=
  suffix.data.isSuffixOf s.data

/-- The marker `Listen` looks for at the end of the error text (udp.go line 84). -/
def closedSuffix : String := " use of closed network connection"

/-- Go `expvar.Int.Add(delta)`: an atomic addition on an `int64`, wrapping
around in two's complement. -/
def int64Add (v delta : Int) : Int :=
  (v + delta + 2 ^ 63) % 2 ^ 64 - 2 ^ 63

/-! ## Packets and the packet pool -/

/-- Modelled from the spec: `Packet` is declared outside the files under
verification.  Spec section 3: a packet has a fixed-capacity `buffer` and
`contents`, the valid-length view into the buffer.  `addr` is the identity
of the Go pointer `*Packet`. -/
structure Packet where
  addr : Nat
  buffer : List Nat
  Contents : List Nat
deriving DecidableEq

/-- Modelled from the spec: `PacketPool` is declared outside the files under
verification.  Spec sections 3 and 4.1: a supply of pre-sized buffers whose
`acquire` never fails and never blocks, allocating a fresh buffer when the
pool is exhausted.  `free` holds the packets the pool currently owns and
`nextAddr` is the address the next allocation receives. -/
structure PacketPool where
  bufferSize : Nat
  free : List Packet
  nextAddr : Nat
deriving DecidableEq

/-- Modelled from the spec: `PacketPool.Get` (`acquire`, spec section 4.1).
Hands out a pooled packet when there is one and a freshly allocated packet
otherwise. -/
def PacketPool.Get (p : PacketPool) : Packet × PacketPool :=
  match p.free with
  | pkt :: rest => (pkt, { p with free := rest })
  | [] =>
    ({ addr := p.nextAddr, buffer := List.replicate p.bufferSize 0, Contents := [] },
     { p with nextAddr := p.nextAddr + 1 })

/-- Modelled from the spec: `PacketPool.Put` (`release`, spec section 4.1).
Returns a packet to the pool for reuse. -/
def PacketPool.Put (p : PacketPool) (pkt : Packet) : PacketPool :=
  { p with free := pkt :: p.free }

/-! ## The socket -/

/-- What one blocking `conn.ReadFrom` call meets: a datagram, or a failure
with the text of `err.Error()`. -/
inductive ReadResult where
  | datagram (payload : List Nat)
  | failure (msg : String)
deriving DecidableEq

/-- What `n, _, err := conn.ReadFrom(buf)` leaves behind: the byte count, the
buffer after the call and the error (`none` is Go `nil`). -/
structure ReadOutcome where
  n : Nat
  buffer : List Nat
  err : Option String
deriving DecidableEq

/-- Go `net.PacketConn.ReadFrom`: a datagram is copied into the buffer,
truncated to the buffer length, and the number of bytes copied is returned; a
failure leaves the buffer alone and returns the error. -/
def ReadFrom (r : ReadResult) (buf : List Nat) : ReadOutcome :=
  match r with
  | .datagram payload =>
    let n := min payload.length buf.length
    { n := n, buffer := payload.take n ++ buf.drop n, err := none }
  | .failure msg => { n := 0, buffer := buf, err := some msg }

/-- Calls made on collaborators, in program order. -/
inductive Event where
  | logDebug (msg : String)
  | logInfo (msg : String)
  | logError (msg : String)
  | listenPacket (network url : String)
  | setReadBuffer (rcvbuf : Int)
  | poolGet (packet : Packet)
  | poolPut (packet : Packet)
  | readFrom (packet : Packet) (out : ReadOutcome)
  | bufferAppend (packet : Packet)
  | bufferClose
  | connClose
deriving DecidableEq

/-- The packets passed to `packetBuffer.append`, in call order. -/
def appendsOf : List Event → List Packet
  | [] => []
  | .bufferAppend p :: es => p :: appendsOf es
  | _ :: es => appendsOf es

/-- The packets obtained from `packetPool.Get`, in call order. -/
def getsOf : List Event → List Packet
  | [] => []
  | .poolGet p :: es => p :: getsOf es
  | _ :: es => getsOf es

/-- The packets handed back with `packetPool.Put`, in call order. -/
def putsOf : List Event → List Packet
  | [] => []
  | .poolPut p :: es => p :: putsOf es
  | _ :: es => putsOf es

/-- The `ReadFrom` calls that returned, in call order: the packet whose buffer
was passed, and the outcome. -/
def readsOf : List Event → List (Packet × ReadOutcome)
  | [] => []
  | .readFrom p o :: es => (p, o) :: readsOf es
  | _ :: es => readsOf es

/-- The messages logged at error level, in call order. -/
def errorLogsOf : List Event → List String
  | [] => []
  | .logError m :: es => m :: errorLogsOf es
  | _ :: es => errorLogsOf es

/-! ## The listener -/

/-- A bound UDP socket (`*net.UDPConn`); `localAddr` is what `conn.LocalAddr()`
prints. -/
structure Conn where
  localAddr : String
deriving DecidableEq

/-- Modelled from the spec: `packetBuffer` and `newPacketBuffer` are declared
outside the files under verification.  Spec section 4.2: the batch accumulator,
built from the maximum batch size, the flush interval and the output channel.
Only the construction arguments are kept; `append` and `close` appear as
events. -/
structure packetBuffer where
  bufferSize : Nat
  flushTimer : Int
  outputChannel : Nat
deriving DecidableEq

/-- The struct `UDPListener` (lines 34 to 38).  `packetPool` is the pointer
passed to the constructor. -/
structure UDPListener where
  conn : Conn
  packetPool : Nat
  packetBuffer : packetBuffer
deriving DecidableEq

/-! ## `UDPListener.Listen` -/

/-- The state `Listen` reads and writes besides its collaborators: the pool and
the two package-level `expvar.Int` counters. -/
structure World where
  packetPool : PacketPool
  udpPackets : Int
  udpPacketReadingErrors : Int
deriving DecidableEq

/-- How one pass through the body of the `for` loop ends. -/
inductive Flow where
  | next
  | ret
deriving DecidableEq

/-- How a run of `Listen` against a finite list of receive results ends:
`returned` when the function returned, `blocked packet` when it is waiting
inside `ReadFrom(packet.buffer)` for a result the list does not contain. -/
inductive Status where
  | returned
  | blocked (packet : Packet)
deriving DecidableEq

/-- Lines 79 and 80: `packet := l.packetPool.Get()` and `udpPackets.Add(1)`,
both executed before the receive. -/
def Listen.acquire (w : World) : Packet × World :=
  let (packet, pool) := w.packetPool.Get
  (packet, { w with packetPool := pool, udpPackets := int64Add w.udpPackets 1 })

/-- Lines 81 to 96: the receive into `packet.buffer` meets `r`, and what the
loop body does with the result. -/
def Listen.receive (r : ReadResult) (packet : Packet) (w : World) :
    List Event × World × Flow :=
  let out := ReadFrom r packet.buffer
  match out.err with
  | some msg =>
    if HasSuffix msg closedSuffix then
      ([.readFrom packet out], w, .ret)
    else
      ([.readFrom packet out, .logError ("dogstatsd-udp: error reading packet: " ++ msg)],
       { w with udpPacketReadingErrors := int64Add w.udpPacketReadingErrors 1 },
       .next)
  | none =>
    let packet1 := { packet with buffer := out.buffer, Contents := out.buffer.take out.n }
    ([.readFrom packet out, .bufferAppend packet1], w, .next)

/-- The `for` loop of `Listen` (lines 78 to 97) run against the receive
results `script`, one per pass. -/
def Listen.loop : List ReadResult → World → List Event × World × Status
  | [], w =>
    let (packet, w1) := Listen.acquire w
    ([.poolGet packet], w1, .blocked packet)
  | r :: rest, w =>
    let (packet, w1) := Listen.acquire w
    match Listen.receive r packet w1 with
    | (es, w2, .ret) => (.poolGet packet :: es, w2, .returned)
    | (es, w2, .next) =>
      let (es3, w3, st) := Listen.loop rest w2
      (.poolGet packet :: es ++ es3, w3, st)

/-- The method `UDPListener.Listen` (lines 76 to 98): the start-up log line, then the
loop. -/
def Listen (l : UDPListener) (script : List ReadResult) (w : World) :
    List Event × World × Status :=
  let (es, w1, st) := Listen.loop script w
  (.logInfo ("dogstatsd-udp: starting to listen on " ++ l.conn.localAddr) :: es, w1, st)

/-- A run that is waiting inside `ReadFrom` goes on when the receive meets
`r`: the rest of the pass and, unless the function returns, the acquisition
that opens the next pass.  A run that returned stays as it is. -/
def Listen.resume (r : ReadResult) :
    List Event × World × Status → List Event × World × Status
  | (es, w, .returned) => (es, w, .returned)
  | (es, w, .blocked packet) =>
    match Listen.receive r packet w with
    | (es2, w2, .ret) => (es ++ es2, w2, .returned)
    | (es2, w2, .next) =>
      let (packet1, w3) := Listen.acquire w2
      (es ++ es2 ++ [.poolGet packet1], w3, .blocked packet1)

/-- A receive result that makes `Listen` return: a failure whose text ends in
`closedSuffix`. -/
def ReadResult.isClosed : ReadResult → Bool
  | .datagram _ => false
  | .failure msg => HasSuffix msg closedSuffix

/-- A receive that succeeded. -/
def ReadResult.isDatagram : ReadResult → Bool
  | .datagram _ => true
  | .failure _ => false

/-- A receive that failed with an error other than the closed-connection one. -/
def ReadResult.isTransient : ReadResult → Bool
  | .datagram _ => false
  | .failure msg => !HasSuffix msg closedSuffix

/-! ## `NewUDPListener` -/

/-- The read-only settings object `config.Datadog`, by key. -/
structure Config where
  GetBool : String → Bool
  GetInt : String → Int
  GetString : String → String
  GetDuration : String → Int

/-- The operating system as `NewUDPListener` sees it.  `ListenPacket network
url` is Go `net.ListenPacket`: `.ok conn` stands for `(conn, nil)` and
`.error e` for `(nil, err)` with `err.Error() = e`.  `SetReadBuffer conn n`
is `(*net.UDPConn).SetReadBuffer`: `none` is a `nil` error. -/
structure Net where
  ListenPacket : String → String → Except String Conn
  SetReadBuffer : Conn → Int → Option String

/-- How a Go call with result type `(*T, error)` ends: `ok v` is `(v, nil)`,
`error msg` is `(nil, err)` and `panic msg` is a run-time panic. -/
inductive Outcome (α : Type) where
  | ok (value : α)
  | error (msg : String)
  | panic (msg : String)
deriving DecidableEq

/-- Go `net.JoinHostPort`: a host containing a colon is an IPv6 literal and is
bracketed. -/
def JoinHostPort (host port : String) : String :=
  if host.data.contains ':' then "[" ++ host ++ "]:" ++ port
  else host ++ ":" ++ port

/-- Go conversion `uint(x)` of a 64 bit `int`. -/
def toUint (x : Int) : Nat := (x % 2 ^ 64).toNat

/-- Lines 46 to 51: the address handed to `net.ListenPacket`. -/
def NewUDPListener.url (cfg : Config) : String :=
  if cfg.GetBool "dogstatsd_non_local_traffic" == true then
    ":" ++ toString (cfg.GetInt "dogstatsd_port")
  else
    JoinHostPort (cfg.GetString "bind_host") (cfg.GetString "dogstatsd_port")

/-- Lines 61 to 72: the check of the bind error and the construction of the
listener; `es` are the events so far. -/
def NewUDPListener.finish (cfg : Config) (bound : Except String Conn)
    (packetOut packetPool : Nat) (es : List Event) : List Event × Outcome UDPListener :=
  match bound with
  | .error e => (es, .error ("can\x27t listen: " ++ e))
  | .ok conn =>
    let listener : UDPListener :=
      { packetPool := packetPool
        conn := conn
        packetBuffer :=
          { bufferSize := toUint (cfg.GetInt "dogstatsd_packet_buffer_size")
            flushTimer := cfg.GetDuration "dogstatsd_packet_buffer_flush_timeout"
            outputChannel := packetOut } }
    (es ++ [.logDebug ("dogstatsd-udp: " ++ conn.localAddr ++ " successfully initialized")],
     .ok listener)

/-- The constructor `NewUDPListener` (lines 41 to 73).  The type assertion
`conn.(*net.UDPConn)` of line 56 is evaluated whenever `dogstatsd_so_rcvbuf`
is non-zero, before the bind error is looked at on line 61; on the `nil`
interface a failed bind leaves in `conn` it panics. -/
def NewUDPListener (cfg : Config) (os : Net) (packetOut packetPool : Nat) :
    List Event × Outcome UDPListener :=
  let url := NewUDPListener.url cfg
  let bound := os.ListenPacket "udp" url
  let es : List Event := [.listenPacket "udp" url]
  let rcvbuf := cfg.GetInt "dogstatsd_so_rcvbuf"
  if rcvbuf != 0 then
    match bound with
    | .error _ =>
      (es, .panic "interface conversion: net.PacketConn is nil, not *net.UDPConn")
    | .ok conn =>
      match os.SetReadBuffer conn rcvbuf with
      | some e =>
        (es ++ [.setReadBuffer rcvbuf], .error ("could not set socket rcvbuf: " ++ e))
      | none =>
        NewUDPListener.finish cfg bound packetOut packetPool (es ++ [.setReadBuffer rcvbuf])
  else
    NewUDPListener.finish cfg bound packetOut packetPool es

/-- Whether an event is a call of `SetReadBuffer`. -/
def Event.isSetReadBuffer : Event → Bool
  | .setReadBuffer _ => true
  | _ => false

/-! ## `UDPListener.Stop` -/

/-- The method `UDPListener.Stop` (lines 101 to 104): `l.packetBuffer.close()` and then
`l.conn.Close()`, whose error result is discarded.  The struct has no field
recording that the listener was stopped, and nothing is read before the two
calls. -/
def Stop (_l : UDPListener) : List Event :=
  [.bufferClose, .connClose]

/-- The lifecycle states named in spec sections 3 and 4.4.  The struct
`UDPListener` has no field holding one. -/
inductive State where
  | idle
  | listening
  | stopped
deriving DecidableEq

/-- A notion of the specification, not of the code: the lifecycle state of spec
section 4.4 read off the calls made so far on a listener, stopped once `Stop`
closed its socket, listening once `Listen` logged its start, idle before. -/
def lifecycle (history : List Event) : State :=
  if Event.connClose ∈ history then .stopped
  else if history.any (fun e => match e with | .logInfo _ => true | _ => false) then .listening
  else .idle

/-! ## Sample inputs -/

/-- A listener bound to the default dogstatsd port. -/
def sampleListener : UDPListener :=
  { conn := { localAddr := "127.0.0.1:8125" }
    packetPool := 1
    packetBuffer := { bufferSize := 32, flushTimer := 100, outputChannel := 2 } }

/-- A fresh process: an empty pool of four byte buffers, both counters zero. -/
def sampleWorld : World :=
  { packetPool := { bufferSize := 4, free := [], nextAddr := 0 }
    udpPackets := 0
    udpPacketReadingErrors := 0 }

/-- The error text of a receive on a socket closed by `Stop`. -/
def closedText : String :=
  "read udp 127.0.0.1:8125: use of closed network connection"

/-- The error text of a receive that failed for another reason. -/
def refusedText : String :=
  "read udp 127.0.0.1:8125: recvfrom: connection refused"

/-- A configuration binding to `localhost:8125` with the given value of
`dogstatsd_so_rcvbuf`. -/
def sampleConfig (rcvbuf : Int) : Config :=
  { GetBool := fun _ => false
    GetInt := fun k =>
      if k = "dogstatsd_so_rcvbuf" then rcvbuf
      else if k = "dogstatsd_packet_buffer_size" then 32
      else 8125
    GetString := fun k => if k = "bind_host" then "localhost" else "8125"
    GetDuration := fun _ => 100 }

/-- An operating system on which the port is taken: every bind fails. -/
def busyNet : Net :=
  { ListenPacket := fun _ _ => .error "listen udp 127.0.0.1:8125: bind: address already in use"
    SetReadBuffer := fun _ _ => none }

/-- An operating system on which every bind and every `SetReadBuffer`
succeeds. -/
def freeNet : Net :=
  { ListenPacket := fun _ url => .ok { localAddr := url }
    SetReadBuffer := fun _ _ => none }

end Listeners

namespace Procdiscovery

/-! ## Go maps as association lists -/

/-- Go `m[k] = struct{}{}` on a `map[string]struct{}`: the keys, without
repetition. -/
def setInsert (m : List String) (k : String) : List String :=
  if k ∈ m then m else m ++ [k]

/-- Go `m[k] = v` on a map kept as an association list with distinct keys. -/
def mapSet {β : Type} : List (String × β) → String → β → List (String × β)
  | [], k, v => [(k, v)]
  | (k1, v1) :: m, k, v =>
    if k1 = k then (k, v) :: m else (k1, v1) :: mapSet m k v

/-! ## Data model -/

/-- The struct `IntegrationProcess` (lines 13 to 17). -/
structure IntegrationProcess where
  Cmd : String
  DisplayName : String
  Name : String
deriving DecidableEq

/-- The struct `DiscoveredIntegrations` (lines 20 to 24). -/
structure DiscoveredIntegrations where
  Discovered : List (String × List IntegrationProcess)
  Running : List String
  Failing : List String
deriving DecidableEq

/-- The fields of `procmatch.Integration` the function reads from a match. -/
structure Integration where
  Name : String
  DisplayName : String
deriving DecidableEq

/-- A `*process.Process` of gopsutil, as far as the function looks at it:
`Cmdline` is the result of `p.Cmdline()`, `.error e` when it cannot be read. -/
structure Process where
  Cmdline : Except String String

/-- The decoded agent status of `retrieveIntegrations` (lines 97 to 104): the
keys of `runnerStats.Checks` and of `checkSchedulerStats.LoaderErrors`. -/
structure StatusDoc where
  Checks : List String
  LoaderErrors : List String
deriving DecidableEq

/-- Everything `DiscoverIntegrations` obtains from outside: the default
matcher, the process list, the agent status with its JSON round trip, and the
order in which `range` visits the keys of a map, which Go leaves
unspecified. -/
structure Env where
  NewDefault : Except String (String → Integration)
  Processes : Except String (List Process)
  GetStatus : Except String String
  Marshal : String → Except String (List Nat)
  Unmarshal : List Nat → Except String StatusDoc
  rangeOrder : List String → List String

/-! ## `retrieveIntegrations` and `DiscoverIntegrations` -/

/-- The function `retrieveIntegrations` (lines 82 to 119): `(running, failing, err)`. -/
def retrieveIntegrations (env : Env) : List String × List String × Option String :=
  match env.GetStatus with
  | .error e => ([], [], some ("Couldn\x27t retrieve agent status: " ++ e))
  | .ok statusRaw =>
    match env.Marshal statusRaw with
    | .error e => ([], [], some ("Couldn\x27t marshal agent status: " ++ e))
    | .ok statusBytes =>
      match env.Unmarshal statusBytes with
      | .error e => ([], [], some ("Couldn\x27t decode agent status response: " ++ e))
      | .ok status =>
        ((env.rangeOrder status.Checks).foldl setInsert [],
         (env.rangeOrder status.LoaderErrors).foldl setInsert [], none)

/-- Lines 47 to 54: the set of command lines; a process whose command line
cannot be read is skipped. -/
def processList (processes : List Process) : List String :=
  processes.foldl
    (fun acc p =>
      match p.Cmdline with
      | .error _ => acc
      | .ok cmd => setInsert acc cmd)
    []

/-- Lines 60 to 73: the body of the loop over the command lines. -/
def matchProcess (matcher : String → Integration)
    (integrations : List (String × List IntegrationProcess)) (process : String) :
    List (String × List IntegrationProcess) :=
  let matched := matcher process
  if matched.Name.length == 0 then integrations
  else
    let integrations1 :=
      match integrations.lookup matched.Name with
      | some _ => integrations
      | none => mapSet integrations matched.Name []
    mapSet integrations1 matched.Name
      ((integrations1.lookup matched.Name).getD [] ++
        [{ Cmd := process, DisplayName := matched.DisplayName, Name := matched.Name }])

/-- The function `DiscoverIntegrations` (lines 27 to 80): `(di, err)`, where `none` is a
`nil` error. -/
def DiscoverIntegrations (env : Env) : DiscoveredIntegrations × Option String :=
  let di : DiscoveredIntegrations := { Discovered := [], Running := [], Failing := [] }
  match env.NewDefault with
  | .error e => (di, some ("Couldn\x27t build default process matcher: " ++ e))
  | .ok matcher =>
    match env.Processes with
    | .error e => (di, some ("Couldn\x27t retrieve process list: " ++ e))
    | .ok processes =>
      match retrieveIntegrations env with
      | (_, _, some err) => (di, some err)
      | (running, failing, none) =>
        let integrations :=
          (env.rangeOrder (processList processes)).foldl (matchProcess matcher) []
        ({ Discovered := integrations, Running := running, Failing := failing }, none)

/-- Every command line stored in a `Discovered` map, key by key. -/
def allCmds (m : List (String × List IntegrationProcess)) : List String :=
  m.flatMap (fun kv => kv.2.map (fun ip => ip.Cmd))

/-- The invariant of the loop of lines 59 to 74 once the command lines `seen`
have been visited: the keys of the map are distinct, every value is a
non-empty list of entries carrying its key as `Name`, no key is empty, and the
command lines stored are, up to order, the visited ones with a non-empty
match. -/
def Grouped (matcher : String → Integration)
    (m : List (String × List IntegrationProcess)) (seen : List String) : Prop :=
  (m.map (fun kv => kv.1)).Nodup ∧
  (∀ kv ∈ m, kv.2 ≠ [] ∧ kv.1 ≠ "" ∧
    ∀ ip ∈ kv.2, ip.Name = kv.1 ∧ (matcher ip.Cmd).Name = kv.1 ∧
      ip.DisplayName = (matcher ip.Cmd).DisplayName) ∧
  (allCmds m).Perm (seen.filter (fun c => !((matcher c).Name.length == 0)))

/-! ## Sample inputs -/

/-- A matcher knowing two integrations. -/
def sampleMatcher : String → Integration := fun cmd =>
  if cmd.data.contains 'r' then { Name := "redis", DisplayName := "Redis" }
  else if cmd.data.contains 'x' then { Name := "nginx", DisplayName := "Nginx" }
  else { Name := "", DisplayName := "" }

/-- A host with six processes, two of them sharing a command line and one
whose command line cannot be read; `range` visits maps in reverse insertion
order. -/
def sampleEnv : Env where
  NewDefault := .ok sampleMatcher
  Processes := .ok
    [⟨.ok "redis-server"⟩, ⟨.error "no such process"⟩, ⟨.ok "nginx -g"⟩,
     ⟨.ok "redis-server"⟩, ⟨.ok "redis-cli"⟩, ⟨.ok "bash"⟩]
  GetStatus := .ok "status"
  Marshal := fun _ => .ok []
  Unmarshal := fun _ => .ok { Checks := ["cpu", "disk"], LoaderErrors := ["redisdb"] }
  rangeOrder := List.reverse

/-- What `DiscoverIntegrations` returns on `sampleEnv`. -/
def sampleDiscovered : DiscoveredIntegrations :=
  { Discovered :=
      [("redis",
        [{ Cmd := "redis-cli", DisplayName := "Redis", Name := "redis" },
         { Cmd := "redis-server", DisplayName := "Redis", Name := "redis" }]),
       ("nginx", [{ Cmd := "nginx -g", DisplayName := "Nginx", Name := "nginx" }])]
    Running := ["disk", "cpu"]
    Failing := ["redisdb"] }

end Procdiscovery


namespace Listeners

/-! ## Facts about the loop of `Listen` -/

theorem int64Add_one_of_lt (v : Int) (hlo : -2 ^ 63 ≤ v) (hhi : v < 2 ^ 63 - 1) :
    int64Add v 1 = v + 1 := by
  unfold int64Add
  norm_num at hlo hhi ⊢
  omega

theorem resume_append_left (r : ReadResult) (pfx es : List Event) (w : World) (st : Status) :
    Listen.resume r (pfx ++ es, w, st) =
      (pfx ++ (Listen.resume r (es, w, st)).1, (Listen.resume r (es, w, st)).2) := by
  cases st with
  | returned => simp [Listen.resume]
  | blocked packet =>
    simp only [Listen.resume]
    rcases Listen.receive r packet w with ⟨es2, w2, fl⟩
    cases fl <;> simp

theorem loop_snoc (pre : List ReadResult) (r : ReadResult) (w : World) :
    Listen.loop (pre ++ [r]) w = Listen.resume r (Listen.loop pre w) := by
  induction pre generalizing w with
  | nil =>
    simp only [List.nil_append, Listen.loop, Listen.resume]
    rcases Listen.receive r (Listen.acquire w).1 (Listen.acquire w).2 with ⟨es2, w2, fl⟩
    cases fl <;> simp
  | cons x pre ih =>
    simp only [List.cons_append, Listen.loop]
    rcases Listen.receive x (Listen.acquire w).1 (Listen.acquire w).2 with ⟨es2, w2, fl⟩
    cases fl
    · rcases hloop : Listen.loop pre w2 with ⟨es3, w3, st⟩
      have := resume_append_left r (Event.poolGet (Listen.acquire w).1 :: es2) es3 w3 st
      simp only [List.cons_append] at this
      simp [this, ih, hloop]
    · simp [Listen.resume]

end Listeners

namespace Listeners

theorem appendsOf_append (a b : List Event) :
    appendsOf (a ++ b) = appendsOf a ++ appendsOf b := by
  induction a with
  | nil => rfl
  | cons e a ih => cases e <;> simp [appendsOf, ih]

theorem getsOf_append (a b : List Event) :
    getsOf (a ++ b) = getsOf a ++ getsOf b := by
  induction a with
  | nil => rfl
  | cons e a ih => cases e <;> simp [getsOf, ih]

theorem readsOf_append (a b : List Event) :
    readsOf (a ++ b) = readsOf a ++ readsOf b := by
  induction a with
  | nil => rfl
  | cons e a ih => cases e <;> simp [readsOf, ih]

theorem errorLogsOf_append (a b : List Event) :
    errorLogsOf (a ++ b) = errorLogsOf a ++ errorLogsOf b := by
  induction a with
  | nil => rfl
  | cons e a ih => cases e <;> simp [errorLogsOf, ih]

theorem receive_datagram (payload : List Nat) (packet : Packet) (w : World) :
    Listen.receive (.datagram payload) packet w =
      ([.readFrom packet (ReadFrom (.datagram payload) packet.buffer),
        .bufferAppend
          { packet with
            buffer := (ReadFrom (.datagram payload) packet.buffer).buffer
            Contents := (ReadFrom (.datagram payload) packet.buffer).buffer.take
              (ReadFrom (.datagram payload) packet.buffer).n }],
       w, .next) := by
  simp [Listen.receive, ReadFrom]

theorem receive_closed (msg : String) (packet : Packet) (w : World)
    (h : HasSuffix msg closedSuffix = true) :
    Listen.receive (.failure msg) packet w =
      ([.readFrom packet (ReadFrom (.failure msg) packet.buffer)], w, .ret) := by
  simp [Listen.receive, ReadFrom, h]

theorem receive_transient (msg : String) (packet : Packet) (w : World)
    (h : HasSuffix msg closedSuffix = false) :
    Listen.receive (.failure msg) packet w =
      ([.readFrom packet (ReadFrom (.failure msg) packet.buffer),
        .logError ("dogstatsd-udp: error reading packet: " ++ msg)],
       { w with udpPacketReadingErrors := int64Add w.udpPacketReadingErrors 1 },
       .next) := by
  simp [Listen.receive, ReadFrom, h]

theorem receive_flow (r : ReadResult) (packet : Packet) (w : World) :
    (Listen.receive r packet w).2.2 = (if r.isClosed then Flow.ret else Flow.next) := by
  cases r with
  | datagram payload => simp [receive_datagram, ReadResult.isClosed]
  | failure msg =>
    cases h : HasSuffix msg closedSuffix
    · simp [receive_transient _ _ _ h, ReadResult.isClosed, h]
    · simp [receive_closed _ _ _ h, ReadResult.isClosed, h]

theorem loop_returned_iff (script : List ReadResult) (w : World) :
    (Listen.loop script w).2.2 = .returned ↔ ∃ r ∈ script, r.isClosed = true := by
  induction script generalizing w with
  | nil => simp [Listen.loop]
  | cons x rest ih =>
    have hf := receive_flow x (Listen.acquire w).1 (Listen.acquire w).2
    simp only [Listen.loop]
    rcases hr : Listen.receive x (Listen.acquire w).1 (Listen.acquire w).2 with ⟨es2, w2, fl⟩
    rw [hr] at hf
    cases hx : x.isClosed
    · simp only [hx] at hf
      simp at hf
      subst hf
      simp [ih, hx]
    · simp only [hx] at hf
      simp at hf
      subst hf
      simp [hx]

theorem loop_blocked_of_no_closed (script : List ReadResult) (w : World)
    (h : ∀ r ∈ script, r.isClosed = false) :
    ∃ packet, (Listen.loop script w).2.2 = .blocked packet := by
  cases hst : (Listen.loop script w).2.2 with
  | blocked packet => exact ⟨packet, rfl⟩
  | returned =>
    obtain ⟨r, hr, hc⟩ := (loop_returned_iff script w).1 hst
    rw [h r hr] at hc
    cases hc

theorem Listen_events (l : UDPListener) (script : List ReadResult) (w : World) :
    (Listen l script w).1 =
      .logInfo ("dogstatsd-udp: starting to listen on " ++ l.conn.localAddr) ::
        (Listen.loop script w).1 := by
  simp [Listen]

theorem Listen_rest (l : UDPListener) (script : List ReadResult) (w : World) :
    (Listen l script w).2 = (Listen.loop script w).2 := by
  simp [Listen]

end Listeners

namespace Listeners

/-! ## The claims about `Listen` -/

/-- C2, evaluated on the code: `udpPackets.Add(1)` on line 80 runs at the top of
every pass, before the receive.  A listener stopped before any datagram
arrived, whose only receive fails with the closed-connection error, returns
with `udpPackets` raised by one although no receive succeeded; a run of one
datagram, one transient error and the closing error raises it by three with
one successful receive. -/
theorem Listen_counts_every_pass :
    (Listen sampleListener [.failure closedText] sampleWorld).2.2 = .returned ∧
    (Listen sampleListener [.failure closedText] sampleWorld).2.1.udpPackets
      = sampleWorld.udpPackets + 1 ∧
    List.countP ReadResult.isDatagram [.failure closedText] = 0 ∧
    (Listen sampleListener
        [.datagram [1, 2], .failure refusedText, .failure closedText] sampleWorld).2.2
      = .returned ∧
    (Listen sampleListener
        [.datagram [1, 2], .failure refusedText, .failure closedText] sampleWorld).2.1.udpPackets
      = sampleWorld.udpPackets + 3 ∧
    List.countP ReadResult.isDatagram
        [.datagram [1, 2], .failure refusedText, .failure closedText] = 1 := by
  decide

/-- C4: take any point of a run at which `Listen` waits in a receive (no
closed-connection error among the earlier results `pre`) and let that receive
fail with an error `msg` that does not end in the closed-connection text.
Then `udpPacketReadingErrors` is raised by one (as a 64 bit addition, which is
`+ 1` from any value below the largest), nothing is appended for that receive,
the function does not return but acquires a packet `nxt` and waits in a
further receive, and if that receive meets a datagram the packet `nxt`, filled
by it, is appended. -/
theorem Listen_transient_error_continues (l : UDPListener) (w : World)
    (pre : List ReadResult) (msg : String)
    (hpre : ∀ r ∈ pre, r.isClosed = false)
    (hmsg : HasSuffix msg closedSuffix = false) :
    ∃ packet nxt,
      (Listen l pre w).2.2 = .blocked packet ∧
      (Listen l (pre ++ [.failure msg]) w).2.2 = .blocked nxt ∧
      (Listen l (pre ++ [.failure msg]) w).1 =
        (Listen l pre w).1 ++
          [.readFrom packet (ReadFrom (.failure msg) packet.buffer),
           .logError ("dogstatsd-udp: error reading packet: " ++ msg),
           .poolGet nxt] ∧
      (Listen l (pre ++ [.failure msg]) w).2.1.udpPacketReadingErrors =
        int64Add (Listen l pre w).2.1.udpPacketReadingErrors 1 ∧
      (-2 ^ 63 ≤ (Listen l pre w).2.1.udpPacketReadingErrors →
        (Listen l pre w).2.1.udpPacketReadingErrors < 2 ^ 63 - 1 →
        (Listen l (pre ++ [.failure msg]) w).2.1.udpPacketReadingErrors =
          (Listen l pre w).2.1.udpPacketReadingErrors + 1) ∧
      appendsOf (Listen l (pre ++ [.failure msg]) w).1 = appendsOf (Listen l pre w).1 ∧
      (readsOf (Listen l (pre ++ [.failure msg]) w).1).length =
        (readsOf (Listen l pre w).1).length + 1 ∧
      ∀ payload : List Nat,
        (readsOf (Listen l (pre ++ [.failure msg, .datagram payload]) w).1).length =
          (readsOf (Listen l pre w).1).length + 2 ∧
        appendsOf (Listen l (pre ++ [.failure msg, .datagram payload]) w).1 =
          appendsOf (Listen l pre w).1 ++
            [{ nxt with
               buffer := (ReadFrom (.datagram payload) nxt.buffer).buffer
               Contents := (ReadFrom (.datagram payload) nxt.buffer).buffer.take
                 (ReadFrom (.datagram payload) nxt.buffer).n }] := by
  obtain ⟨packet, hb⟩ := loop_blocked_of_no_closed pre w hpre
  rcases hloop : Listen.loop pre w with ⟨es, w1, st⟩
  rw [hloop] at hb
  simp only at hb
  subst hb
  rcases hacq : Listen.acquire
      { w1 with udpPacketReadingErrors := int64Add w1.udpPacketReadingErrors 1 }
    with ⟨nxt, w2⟩
  have herr : w2.udpPacketReadingErrors = int64Add w1.udpPacketReadingErrors 1 := by
    have := congrArg (fun x => x.2.udpPacketReadingErrors) hacq
    simpa [Listen.acquire] using this.symm
  have h1 : Listen.loop (pre ++ [.failure msg]) w =
      (es ++ [.readFrom packet (ReadFrom (.failure msg) packet.buffer),
              .logError ("dogstatsd-udp: error reading packet: " ++ msg)] ++
         [.poolGet nxt], w2, .blocked nxt) := by
    rw [loop_snoc, hloop]
    simp [Listen.resume, receive_transient _ _ _ hmsg, hacq]
  have h2 : ∀ payload : List Nat,
      Listen.loop (pre ++ [.failure msg, .datagram payload]) w =
        Listen.resume (.datagram payload) (Listen.loop (pre ++ [.failure msg]) w) := by
    intro payload
    have : pre ++ [ReadResult.failure msg, .datagram payload]
        = (pre ++ [.failure msg]) ++ [.datagram payload] := by simp
    rw [this, loop_snoc]
  refine ⟨packet, nxt, ?_, ?_, ?_, ?_, ?_, ?_, ?_, ?_⟩
  · simp [Listen_rest, hloop]
  · simp only [Listen_rest, h1]
  · simp [Listen_events, h1, hloop]
  · simp [Listen_rest, h1, hloop, herr]
  · intro hlo hhi
    simp only [Listen_rest, hloop] at hlo hhi
    simp [Listen_rest, h1, hloop, herr, int64Add_one_of_lt _ hlo hhi]
  · simp [Listen_events, h1, hloop, appendsOf_append, appendsOf]
  · simp [Listen_events, h1, hloop, readsOf_append, readsOf]
  · intro payload
    simp only [Listen_events, h2, h1, hloop, Listen.resume, receive_datagram]
    simp [appendsOf_append, appendsOf, readsOf_append, readsOf]

/-- C4 at a concrete run: after one datagram, a refused receive. -/
theorem Listen_transient_error_continues_witness :
    (∀ r ∈ [ReadResult.datagram [7, 8]], r.isClosed = false) ∧
    HasSuffix refusedText closedSuffix = false ∧
    ∃ packet nxt,
      (Listen sampleListener [.datagram [7, 8]] sampleWorld).2.2 = .blocked packet ∧
      (Listen sampleListener ([.datagram [7, 8]] ++ [.failure refusedText]) sampleWorld).2.2
        = .blocked nxt ∧
      (Listen sampleListener
          ([.datagram [7, 8]] ++ [.failure refusedText]) sampleWorld).2.1.udpPacketReadingErrors =
        int64Add
          (Listen sampleListener [.datagram [7, 8]] sampleWorld).2.1.udpPacketReadingErrors 1 :=
  ⟨by decide, by decide,
   (Listen_transient_error_continues sampleListener sampleWorld [.datagram [7, 8]]
      refusedText (by decide) (by decide)).imp fun _ h =>
        h.imp fun _ h => ⟨h.1, h.2.1, h.2.2.2.1⟩⟩

end Listeners

namespace Listeners

theorem loop_append_of_returned (s t : List ReadResult) (w : World)
    (h : (Listen.loop s w).2.2 = .returned) :
    Listen.loop (s ++ t) w = Listen.loop s w := by
  induction s generalizing w with
  | nil => simp [Listen.loop] at h
  | cons x rest ih =>
    rw [List.cons_append]
    revert h
    simp only [Listen.loop]
    rcases Listen.receive x (Listen.acquire w).1 (Listen.acquire w).2 with ⟨es2, w2, fl⟩
    cases fl
    · intro h
      simp only at h ⊢
      rw [ih w2 h]
    · intro _
      rfl

theorem loop_cons_datagram (payload : List Nat) (rest : List ReadResult) (w w1 : World)
    (p : Packet) (hacq : Listen.acquire w = (p, w1)) :
    Listen.loop (.datagram payload :: rest) w =
      (.poolGet p ::
        .readFrom p (ReadFrom (.datagram payload) p.buffer) ::
        .bufferAppend
          { p with
            buffer := (ReadFrom (.datagram payload) p.buffer).buffer
            Contents := (ReadFrom (.datagram payload) p.buffer).buffer.take
              (ReadFrom (.datagram payload) p.buffer).n } ::
        (Listen.loop rest w1).1,
       (Listen.loop rest w1).2) := by
  simp [Listen.loop, receive_datagram, hacq]

theorem loop_cons_transient (msg : String) (rest : List ReadResult) (w w1 : World)
    (p : Packet) (hacq : Listen.acquire w = (p, w1))
    (h : HasSuffix msg closedSuffix = false) :
    Listen.loop (.failure msg :: rest) w =
      (.poolGet p ::
        .readFrom p (ReadFrom (.failure msg) p.buffer) ::
        .logError ("dogstatsd-udp: error reading packet: " ++ msg) ::
        (Listen.loop rest
          { w1 with udpPacketReadingErrors := int64Add w1.udpPacketReadingErrors 1 }).1,
       (Listen.loop rest
          { w1 with udpPacketReadingErrors := int64Add w1.udpPacketReadingErrors 1 }).2) := by
  simp [Listen.loop, receive_transient _ _ _ h, hacq]

theorem loop_cons_closed (msg : String) (rest : List ReadResult) (w w1 : World)
    (p : Packet) (hacq : Listen.acquire w = (p, w1))
    (h : HasSuffix msg closedSuffix = true) :
    Listen.loop (.failure msg :: rest) w =
      ([.poolGet p, .readFrom p (ReadFrom (.failure msg) p.buffer)], w1, .returned) := by
  simp [Listen.loop, receive_closed _ _ _ h, hacq]

theorem loop_nil (w w1 : World) (p : Packet) (hacq : Listen.acquire w = (p, w1)) :
    Listen.loop [] w = ([.poolGet p], w1, .blocked p) := by
  simp [Listen.loop, hacq]

theorem loop_reads_length (script : List ReadResult) (w : World)
    (h : ∀ r ∈ script, r.isClosed = false) :
    (readsOf (Listen.loop script w).1).length = script.length := by
  induction script generalizing w with
  | nil => simp [Listen.loop, readsOf]
  | cons x rest ih =>
    have hrest : ∀ r ∈ rest, r.isClosed = false := fun r hr => h r (List.mem_cons_of_mem _ hr)
    rcases hacq : Listen.acquire w with ⟨p, w1⟩
    cases x with
    | datagram payload =>
      rw [loop_cons_datagram _ _ _ _ _ hacq]
      simp [readsOf, ih _ hrest]
    | failure msg =>
      have hx : HasSuffix msg closedSuffix = false := by
        simpa [ReadResult.isClosed] using h (.failure msg) (List.mem_cons_self _ _)
      rw [loop_cons_transient _ _ _ _ _ hacq hx]
      simp [readsOf, ih _ hrest]

/-- C5: `Listen` returns exactly when some receive fails with an error whose
text ends in the closed-connection marker.  At the first such receive (no
closed-connection error among the earlier results `pre`) it returns at once:
relative to the moment it was waiting in that receive the only event is the
receive itself, so nothing is logged, nothing is appended and no packet is
acquired; the counters are untouched; and however many results `post` would
still be available, no further receive is made. -/
theorem Listen_returns_on_closed_only (l : UDPListener) (w : World)
    (pre post : List ReadResult) (msg : String)
    (hpre : ∀ r ∈ pre, r.isClosed = false)
    (hmsg : HasSuffix msg closedSuffix = true) :
    (∀ (script : List ReadResult) (w1 : World),
      (Listen l script w1).2.2 = .returned ↔ ∃ r ∈ script, r.isClosed = true) ∧
    ∃ packet,
      (Listen l pre w).2.2 = .blocked packet ∧
      (Listen l (pre ++ .failure msg :: post) w).2.2 = .returned ∧
      (Listen l (pre ++ .failure msg :: post) w).1 =
        (Listen l pre w).1 ++ [.readFrom packet (ReadFrom (.failure msg) packet.buffer)] ∧
      (Listen l (pre ++ .failure msg :: post) w).2.1 = (Listen l pre w).2.1 ∧
      (Listen l (pre ++ .failure msg :: post) w).2.1.udpPacketReadingErrors =
        (Listen l pre w).2.1.udpPacketReadingErrors ∧
      appendsOf (Listen l (pre ++ .failure msg :: post) w).1 = appendsOf (Listen l pre w).1 ∧
      errorLogsOf (Listen l (pre ++ .failure msg :: post) w).1 =
        errorLogsOf (Listen l pre w).1 ∧
      (readsOf (Listen l (pre ++ .failure msg :: post) w).1).length = pre.length + 1 := by
  refine ⟨fun script w1 => by rw [Listen_rest]; exact loop_returned_iff script w1, ?_⟩
  obtain ⟨packet, hb⟩ := loop_blocked_of_no_closed pre w hpre
  have hlen := loop_reads_length pre w hpre
  rcases hloop : Listen.loop pre w with ⟨es, w1, st⟩
  rw [hloop] at hb hlen
  simp only at hb hlen
  subst hb
  have h1 : Listen.loop (pre ++ [.failure msg]) w =
      (es ++ [.readFrom packet (ReadFrom (.failure msg) packet.buffer)], w1, .returned) := by
    rw [loop_snoc, hloop]
    simp [Listen.resume, receive_closed _ _ _ hmsg]
  have h2 : Listen.loop (pre ++ .failure msg :: post) w =
      (es ++ [.readFrom packet (ReadFrom (.failure msg) packet.buffer)], w1, .returned) := by
    have : pre ++ ReadResult.failure msg :: post = (pre ++ [.failure msg]) ++ post := by simp
    rw [this, loop_append_of_returned _ _ _ (by rw [h1]), h1]
  refine ⟨packet, ?_, ?_, ?_, ?_, ?_, ?_, ?_, ?_⟩
  · simp [Listen_rest, hloop]
  · simp [Listen_rest, h2]
  · simp [Listen_events, h2, hloop]
  · simp [Listen_rest, h2, hloop]
  · simp [Listen_rest, h2, hloop]
  · simp [Listen_events, h2, hloop, appendsOf_append, appendsOf]
  · simp [Listen_events, h2, hloop, errorLogsOf_append, errorLogsOf]
  · simp [Listen_events, h2, readsOf_append, readsOf, hlen]

/-- C5 at a concrete run: a datagram, a refused receive, then the socket is
closed while two more datagrams would have been available. -/
theorem Listen_returns_on_closed_only_witness :
    (∀ r ∈ [ReadResult.datagram [7, 8], .failure refusedText], r.isClosed = false) ∧
    HasSuffix closedText closedSuffix = true ∧
    (Listen sampleListener
      ([.datagram [7, 8], .failure refusedText] ++
        .failure closedText :: [.datagram [9], .datagram [10]]) sampleWorld).2.2 = .returned ∧
    (readsOf (Listen sampleListener
      ([.datagram [7, 8], .failure refusedText] ++
        .failure closedText :: [.datagram [9], .datagram [10]]) sampleWorld).1).length = 2 + 1 :=
  ⟨by decide, by decide,
   (Listen_returns_on_closed_only sampleListener sampleWorld
      [.datagram [7, 8], .failure refusedText] [.datagram [9], .datagram [10]] closedText
      (by decide) (by decide)).2.elim fun _ h => ⟨h.2.1, h.2.2.2.2.2.2.2⟩⟩

end Listeners

namespace Listeners

theorem ReadFrom_contents (payload buf : List Nat) :
    (ReadFrom (.datagram payload) buf).buffer.take (ReadFrom (.datagram payload) buf).n =
      payload.take buf.length := by
  simp only [ReadFrom]
  rw [List.take_append_of_le_length (by simp)]
  rw [List.take_take]
  simp [List.take_eq_take, Nat.min_comm]

theorem ReadFrom_length (r : ReadResult) (buf : List Nat) :
    (ReadFrom r buf).buffer.length = buf.length ∧ (ReadFrom r buf).n ≤ buf.length := by
  cases r with
  | datagram payload =>
    simp only [ReadFrom, List.length_append, List.length_take, List.length_drop]
    omega
  | failure msg => simp [ReadFrom]

theorem mem_dropLast_cons {α : Type} (x r : α) (rest : List α) (h : r ∈ rest.dropLast) :
    r ∈ (x :: rest).dropLast := by
  cases rest with
  | nil => simp at h
  | cons y t => simp only [List.dropLast]; exact List.mem_cons_of_mem _ h

theorem loop_reads_zip (script : List ReadResult) (w : World) :
    readsOf (Listen.loop script w).1 =
      List.zipWith (fun r p => (p, ReadFrom r p.buffer)) script
        (getsOf (Listen.loop script w).1) := by
  induction script generalizing w with
  | nil => simp [Listen.loop, readsOf]
  | cons x rest ih =>
    rcases hacq : Listen.acquire w with ⟨p, w1⟩
    cases x with
    | datagram payload =>
      rw [loop_cons_datagram _ _ _ _ _ hacq]
      simp only [readsOf, getsOf, List.zipWith_cons_cons]
      rw [← ih]
    | failure msg =>
      cases hx : HasSuffix msg closedSuffix
      · rw [loop_cons_transient _ _ _ _ _ hacq hx]
        simp only [readsOf, getsOf, List.zipWith_cons_cons]
        rw [← ih]
      · rw [loop_cons_closed _ _ _ _ _ hacq hx]
        simp [readsOf, getsOf]

theorem loop_appends_of_reads (script : List ReadResult) (w : World) :
    appendsOf (Listen.loop script w).1 =
      (readsOf (Listen.loop script w).1).filterMap
        (fun x =>
          if x.2.err.isNone then
            some { x.1 with buffer := x.2.buffer, Contents := x.2.buffer.take x.2.n }
          else none) := by
  induction script generalizing w with
  | nil => simp [Listen.loop, readsOf, appendsOf]
  | cons x rest ih =>
    rcases hacq : Listen.acquire w with ⟨p, w1⟩
    cases x with
    | datagram payload =>
      rw [loop_cons_datagram _ _ _ _ _ hacq]
      simp only [readsOf, appendsOf, List.filterMap_cons]
      rw [← ih]
      simp [ReadFrom]
    | failure msg =>
      cases hx : HasSuffix msg closedSuffix
      · rw [loop_cons_transient _ _ _ _ _ hacq hx]
        simp only [readsOf, appendsOf, List.filterMap_cons]
        rw [← ih]
        simp [ReadFrom]
      · rw [loop_cons_closed _ _ _ _ _ hacq hx]
        simp [readsOf, appendsOf, ReadFrom]

theorem loop_contents (script : List ReadResult) (w : World) :
    (appendsOf (Listen.loop script w).1).map (fun q => q.Contents) =
      (List.zip script (getsOf (Listen.loop script w).1)).filterMap
        (fun x =>
          match x.1 with
          | .datagram payload => some (payload.take x.2.buffer.length)
          | .failure _ => none) := by
  induction script generalizing w with
  | nil => simp [Listen.loop, appendsOf]
  | cons x rest ih =>
    rcases hacq : Listen.acquire w with ⟨p, w1⟩
    cases x with
    | datagram payload =>
      rw [loop_cons_datagram _ _ _ _ _ hacq]
      simp only [getsOf, appendsOf, List.zip_cons_cons,
        List.filterMap_cons, List.map_cons, ih, ReadFrom_contents]
    | failure msg =>
      cases hx : HasSuffix msg closedSuffix
      · rw [loop_cons_transient _ _ _ _ _ hacq hx]
        simp only [getsOf, appendsOf, List.zip_cons_cons,
          List.filterMap_cons, ih]
      · rw [loop_cons_closed _ _ _ _ _ hacq hx]
        simp [getsOf, appendsOf]

theorem loop_counts (script : List ReadResult) (w : World)
    (h : ∀ r ∈ script.dropLast, r.isClosed = false) :
    (readsOf (Listen.loop script w).1).length = script.length ∧
    (appendsOf (Listen.loop script w).1).length = script.countP ReadResult.isDatagram := by
  induction script generalizing w with
  | nil => simp [Listen.loop, readsOf, appendsOf]
  | cons x rest ih =>
    have hrest : ∀ r ∈ rest.dropLast, r.isClosed = false :=
      fun r hr => h r (mem_dropLast_cons x r rest hr)
    rcases hacq : Listen.acquire w with ⟨p, w1⟩
    cases x with
    | datagram payload =>
      rw [loop_cons_datagram _ _ _ _ _ hacq]
      simp [readsOf, appendsOf, ih _ hrest, ReadResult.isDatagram]
    | failure msg =>
      cases hx : HasSuffix msg closedSuffix
      · rw [loop_cons_transient _ _ _ _ _ hacq hx]
        simp [readsOf, appendsOf, ih _ hrest,
          ReadResult.isDatagram]
      · have hnil : rest = [] := by
          cases rest with
          | nil => rfl
          | cons y t =>
            have := h (.failure msg) (by simp [List.dropLast])
            simp [ReadResult.isClosed, hx] at this
        subst hnil
        rw [loop_cons_closed _ _ _ _ _ hacq hx]
        simp [readsOf, appendsOf, ReadResult.isDatagram]

/-- C3: for every list of receive results with no closed-connection error
before its last element, every result is received, in order, into the buffer
of the packet acquired for it; the packets passed to `packetBuffer.append` are
exactly the packets of the receives that succeeded, one per success and in
receipt order, each with `Contents` the prefix of length `n` of its buffer as
the receive left it, `n` being the length the receive returned; so the
contents appended are the datagram payloads in receipt order, each cut to the
capacity of its buffer. -/
theorem Listen_appends_successful_receives (l : UDPListener) (script : List ReadResult)
    (w : World) (h : ∀ r ∈ script.dropLast, r.isClosed = false) :
    (readsOf (Listen l script w).1).length = script.length ∧
    readsOf (Listen l script w).1 =
      List.zipWith (fun r p => (p, ReadFrom r p.buffer)) script
        (getsOf (Listen l script w).1) ∧
    appendsOf (Listen l script w).1 =
      (readsOf (Listen l script w).1).filterMap
        (fun x =>
          if x.2.err.isNone then
            some { x.1 with buffer := x.2.buffer, Contents := x.2.buffer.take x.2.n }
          else none) ∧
    (appendsOf (Listen l script w).1).length = script.countP ReadResult.isDatagram ∧
    (appendsOf (Listen l script w).1).map (fun q => q.Contents) =
      (List.zip script (getsOf (Listen l script w).1)).filterMap
        (fun x =>
          match x.1 with
          | .datagram payload => some (payload.take x.2.buffer.length)
          | .failure _ => none) := by
  have hc := loop_counts script w h
  have hz := loop_reads_zip script w
  have ha := loop_appends_of_reads script w
  have hp := loop_contents script w
  simp only [Listen_events, readsOf, appendsOf, getsOf]
  exact ⟨hc.1, hz, ha, hc.2, hp⟩

/-- C3 at a concrete run: two datagrams around a refused receive, the second
longer than the four byte buffers, then the socket is closed. -/
theorem Listen_appends_successful_receives_witness :
    (∀ r ∈ [ReadResult.datagram [7, 8], .failure refusedText,
        .datagram [1, 2, 3, 4, 5], .failure closedText].dropLast, r.isClosed = false) ∧
    (appendsOf (Listen sampleListener
        [.datagram [7, 8], .failure refusedText, .datagram [1, 2, 3, 4, 5],
          .failure closedText] sampleWorld).1).length =
      List.countP ReadResult.isDatagram
        [.datagram [7, 8], .failure refusedText, .datagram [1, 2, 3, 4, 5],
          .failure closedText] :=
  ⟨by decide,
   (Listen_appends_successful_receives sampleListener
      [.datagram [7, 8], .failure refusedText, .datagram [1, 2, 3, 4, 5],
        .failure closedText] sampleWorld (by decide)).2.2.2.1⟩

end Listeners

namespace Listeners

/-! ## Ownership of the packets `Listen` acquires -/

theorem loop_puts (script : List ReadResult) (w : World) :
    putsOf (Listen.loop script w).1 = [] := by
  induction script generalizing w with
  | nil =>
    rcases hacq : Listen.acquire w with ⟨p, w1⟩
    rw [loop_nil _ _ _ hacq]
    rfl
  | cons x rest ih =>
    rcases hacq : Listen.acquire w with ⟨p, w1⟩
    cases x with
    | datagram payload =>
      rw [loop_cons_datagram _ _ _ _ _ hacq]
      simp only [putsOf, ih]
    | failure msg =>
      cases hx : HasSuffix msg closedSuffix
      · rw [loop_cons_transient _ _ _ _ _ hacq hx]
        simp only [putsOf, ih]
      · rw [loop_cons_closed _ _ _ _ _ hacq hx]
        rfl

theorem loop_accounting (script : List ReadResult) (w : World) :
    (getsOf (Listen.loop script w).1).length =
      (appendsOf (Listen.loop script w).1).length +
        ((readsOf (Listen.loop script w).1).filter (fun x => !x.2.err.isNone)).length +
        (if (Listen.loop script w).2.2 = .returned then 0 else 1) := by
  induction script generalizing w with
  | nil =>
    rcases hacq : Listen.acquire w with ⟨p, w1⟩
    rw [loop_nil _ _ _ hacq]
    simp [getsOf, appendsOf, readsOf]
  | cons x rest ih =>
    rcases hacq : Listen.acquire w with ⟨p, w1⟩
    cases x with
    | datagram payload =>
      rw [loop_cons_datagram _ _ _ _ _ hacq]
      simp only [getsOf, appendsOf, readsOf, List.length_cons, ih w1]
      simp [List.filter_cons, ReadFrom]
      omega
    | failure msg =>
      cases hx : HasSuffix msg closedSuffix
      · rw [loop_cons_transient _ _ _ _ _ hacq hx]
        simp only [getsOf, appendsOf, readsOf, List.length_cons,
          ih { w1 with udpPacketReadingErrors := int64Add w1.udpPacketReadingErrors 1 }]
        simp [List.filter_cons, ReadFrom]
        omega
      · rw [loop_cons_closed _ _ _ _ _ hacq hx]
        simp [getsOf, appendsOf, readsOf, List.filter_cons, ReadFrom]

theorem filterMap_delivered_addr (reads : List (Packet × ReadOutcome)) :
    (reads.filterMap
        (fun x =>
          if x.2.err.isNone then
            some { x.1 with buffer := x.2.buffer, Contents := x.2.buffer.take x.2.n }
          else none)).map (fun q => q.addr) =
      (reads.filter (fun x => x.2.err.isNone)).map (fun x => x.1.addr) := by
  induction reads with
  | nil => rfl
  | cons x rest ih =>
    simp only [Option.isNone_iff_eq_none, decide_eq_true_eq] at ih ⊢
    cases hx : x.2.err <;> simp [List.filterMap_cons, List.filter_cons, hx, ih]

/-- C8, as the claim states it, fails on the code: in a run of one refused
receive followed by the closing error, `Listen` has returned, it acquired two
packets from the pool, and neither was passed to `packetBuffer.append` nor is
in the pool. -/
theorem Listen_drops_packets_of_failed_receives :
    (Listen sampleListener [.failure refusedText, .failure closedText] sampleWorld).2.2
      = .returned ∧
    getsOf (Listen sampleListener [.failure refusedText, .failure closedText] sampleWorld).1
      = [{ addr := 0, buffer := [0, 0, 0, 0], Contents := [] },
         { addr := 1, buffer := [0, 0, 0, 0], Contents := [] }] ∧
    appendsOf (Listen sampleListener [.failure refusedText, .failure closedText] sampleWorld).1
      = [] ∧
    (Listen sampleListener
      [.failure refusedText, .failure closedText] sampleWorld).2.1.packetPool.free = [] := by
  decide

/-- C8 as amended: `Listen` never hands a packet back to the pool, it makes no
`Put` call on any path.  Each receive is made into the packet acquired for its
pass; the packets passed to `packetBuffer.append` are exactly those whose
receive succeeded, once each and in receipt order; on a receive that fails,
with a transient error or the closed-connection error, the pass makes neither
an `append` nor a `Put` call.  So every packet acquired is accounted for as
appended, as dropped after a failed receive, or as held by the receive in
progress. -/
theorem Listen_hands_over_successful_receives_only (l : UDPListener)
    (script : List ReadResult) (w : World) :
    putsOf (Listen l script w).1 = [] ∧
    readsOf (Listen l script w).1 =
      List.zipWith (fun r p => (p, ReadFrom r p.buffer)) script
        (getsOf (Listen l script w).1) ∧
    appendsOf (Listen l script w).1 =
      (readsOf (Listen l script w).1).filterMap
        (fun x =>
          if x.2.err.isNone then
            some { x.1 with buffer := x.2.buffer, Contents := x.2.buffer.take x.2.n }
          else none) ∧
    (appendsOf (Listen l script w).1).map (fun q => q.addr) =
      ((readsOf (Listen l script w).1).filter (fun x => x.2.err.isNone)).map
        (fun x => x.1.addr) ∧
    (∀ (msg : String) (packet : Packet) (w1 : World),
      appendsOf (Listen.receive (.failure msg) packet w1).1 = [] ∧
      putsOf (Listen.receive (.failure msg) packet w1).1 = []) ∧
    (getsOf (Listen l script w).1).length =
      (appendsOf (Listen l script w).1).length +
        ((readsOf (Listen l script w).1).filter (fun x => !x.2.err.isNone)).length +
        (if (Listen l script w).2.2 = .returned then 0 else 1) := by
  have hp := loop_puts script w
  have hz := loop_reads_zip script w
  have ha := loop_appends_of_reads script w
  have hc := loop_accounting script w
  have haddr : (appendsOf (Listen.loop script w).1).map (fun q => q.addr) =
      ((readsOf (Listen.loop script w).1).filter (fun x => x.2.err.isNone)).map
        (fun x => x.1.addr) := by
    rw [ha]
    exact filterMap_delivered_addr _
  simp only [Listen_events, Listen_rest, readsOf, appendsOf, getsOf, putsOf]
  refine ⟨hp, hz, ha, haddr, ?_, hc⟩
  intro msg packet w1
  cases hx : HasSuffix msg closedSuffix
  · rw [receive_transient _ _ _ hx]
    exact ⟨rfl, rfl⟩
  · rw [receive_closed _ _ _ hx]
    exact ⟨rfl, rfl⟩

end Listeners

namespace Listeners

/-! ## `NewUDPListener` -/

theorem finish_events (cfg : Config) (bound : Except String Conn) (packetOut packetPool : Nat)
    (es : List Event) (hes : ∀ e ∈ es, e.isSetReadBuffer = false) :
    ∀ e ∈ (NewUDPListener.finish cfg bound packetOut packetPool es).1,
      e.isSetReadBuffer = false := by
  cases bound with
  | error e => simpa [NewUDPListener.finish] using hes
  | ok conn =>
    intro e he
    simp only [NewUDPListener.finish, List.mem_append, List.mem_singleton] at he
    rcases he with he | rfl
    · exact hes e he
    · rfl

theorem listen_text_ne_rcvbuf_text (e1 e2 : String) :
    "can\x27t listen: " ++ e1 ≠ "could not set socket rcvbuf: " ++ e2 := by
  intro h
  have h1 := congrArg String.data h
  rw [String.data_append, String.data_append] at h1
  have ha : ("can\x27t listen: " : String).data =
      'c' :: 'a' :: ("n\x27t listen: " : String).data := by decide
  have hb : ("could not set socket rcvbuf: " : String).data =
      'c' :: 'o' :: ("uld not set socket rcvbuf: " : String).data := by decide
  rw [ha, hb] at h1
  simp only [List.cons_append, List.cons.injEq] at h1
  exact absurd h1.2.1 (by decide)

/-- C1, evaluated on the code: with `dogstatsd_so_rcvbuf` set to 65536 and a
bind that fails, `NewUDPListener` reaches the type assertion of line 56 with a
`nil` connection and panics instead of returning the wrapped bind error; the
same failed bind with the override left at zero returns the error
`can't listen: ...` around the text of the OS error. -/
theorem NewUDPListener_failed_bind_with_rcvbuf_panics :
    NewUDPListener (sampleConfig 65536) busyNet 2 1 =
      ([.listenPacket "udp" "localhost:8125"],
       .panic "interface conversion: net.PacketConn is nil, not *net.UDPConn") ∧
    NewUDPListener (sampleConfig 0) busyNet 2 1 =
      ([.listenPacket "udp" "localhost:8125"],
       .error "can\x27t listen: listen udp 127.0.0.1:8125: bind: address already in use") := by
  decide

/-- C9: when `dogstatsd_so_rcvbuf` is zero, `NewUDPListener` makes no call of
`SetReadBuffer`, never returns the error `could not set socket rcvbuf: ...`,
and succeeds exactly when the bind succeeds: a failed bind is returned as
`can't listen: ...` around the OS error, a successful one yields the listener
on the bound socket. -/
theorem NewUDPListener_zero_rcvbuf (cfg : Config) (os : Net) (packetOut packetPool : Nat)
    (h : cfg.GetInt "dogstatsd_so_rcvbuf" = 0) :
    (∀ e ∈ (NewUDPListener cfg os packetOut packetPool).1, e.isSetReadBuffer = false) ∧
    (∀ e : String, (NewUDPListener cfg os packetOut packetPool).2 ≠
      .error ("could not set socket rcvbuf: " ++ e)) ∧
    ((∃ listener, (NewUDPListener cfg os packetOut packetPool).2 = .ok listener) ↔
      ∃ conn, os.ListenPacket "udp" (NewUDPListener.url cfg) = .ok conn) ∧
    (∀ e : String, os.ListenPacket "udp" (NewUDPListener.url cfg) = .error e →
      (NewUDPListener cfg os packetOut packetPool).2 = .error ("can\x27t listen: " ++ e)) ∧
    (∀ conn : Conn, os.ListenPacket "udp" (NewUDPListener.url cfg) = .ok conn →
      ∃ listener, (NewUDPListener cfg os packetOut packetPool).2 = .ok listener ∧
        listener.conn = conn ∧ listener.packetPool = packetPool) := by
  have hN : NewUDPListener cfg os packetOut packetPool =
      NewUDPListener.finish cfg (os.ListenPacket "udp" (NewUDPListener.url cfg))
        packetOut packetPool [.listenPacket "udp" (NewUDPListener.url cfg)] := by
    simp [NewUDPListener, h]
  rw [hN]
  refine ⟨finish_events _ _ _ _ _ (by simp [Event.isSetReadBuffer]), ?_, ?_, ?_, ?_⟩
  · intro e
    cases hb : os.ListenPacket "udp" (NewUDPListener.url cfg) with
    | error e1 =>
      simp only [NewUDPListener.finish, ne_eq, Outcome.error.injEq]
      exact listen_text_ne_rcvbuf_text e1 e
    | ok conn => simp [NewUDPListener.finish]
  · cases hb : os.ListenPacket "udp" (NewUDPListener.url cfg) with
    | error e1 => simp [NewUDPListener.finish]
    | ok conn => simp [NewUDPListener.finish]
  · intro e he
    simp [he, NewUDPListener.finish]
  · intro conn hc
    simp [hc, NewUDPListener.finish]

/-- C9 at a concrete configuration: override zero, bind succeeds. -/
theorem NewUDPListener_zero_rcvbuf_witness :
    (sampleConfig 0).GetInt "dogstatsd_so_rcvbuf" = 0 ∧
    ((∃ listener, (NewUDPListener (sampleConfig 0) freeNet 2 1).2 = .ok listener) ↔
      ∃ conn, freeNet.ListenPacket "udp" (NewUDPListener.url (sampleConfig 0)) = .ok conn) :=
  ⟨by decide, (NewUDPListener_zero_rcvbuf (sampleConfig 0) freeNet 2 1 (by decide)).2.2.1⟩

/-! ## `Stop` -/

/-- C6: `Stop` makes exactly two calls, `packetBuffer.close` once and
`conn.Close` once, and wherever the socket is closed in its sequence of calls
the accumulator has been closed before and is not closed after. -/
theorem Stop_closes_buffer_then_socket (l : UDPListener) :
    (Stop l).length = 2 ∧
    (Stop l).count .bufferClose = 1 ∧
    (Stop l).count .connClose = 1 ∧
    (Stop l).head? = some .bufferClose ∧
    (Stop l).getLast? = some .connClose ∧
    ∀ pre post : List Event, Stop l = pre ++ .connClose :: post →
      .bufferClose ∈ pre ∧ .bufferClose ∉ post := by
  refine ⟨rfl, by simp [Stop], by simp [Stop], rfl, rfl, ?_⟩
  intro pre post h
  simp only [Stop] at h
  rcases pre with _ | ⟨a, pre⟩
  · simp at h
  · rcases pre with _ | ⟨b, pre⟩
    · simp only [List.cons_append, List.nil_append, List.cons.injEq] at h
      obtain ⟨rfl, _, rfl⟩ := h
      simp
    · simp only [List.cons_append, List.cons.injEq] at h
      obtain ⟨_, _, h3⟩ := h
      simp at h3

/-- C7, as the claim states it, fails on the code: after a first `Stop` the
listener is stopped, and a second `Stop` is neither empty nor rejected; over
the two calls the accumulator and the socket are each closed twice. -/
theorem Stop_twice_closes_twice :
    lifecycle (Stop sampleListener) = .stopped ∧
    Stop sampleListener ≠ [] ∧
    (Stop sampleListener ++ Stop sampleListener).count .bufferClose = 2 ∧
    (Stop sampleListener ++ Stop sampleListener).count .connClose = 2 := by
  decide

/-- C7 as amended: the listener keeps no lifecycle state and `Stop` is not
guarded.  After any history of calls, stopped or not, a call of `Stop` closes
the accumulator once more and then the socket once more; the listener is
stopped from then on, whatever is called later. -/
theorem Stop_is_unconditional (l : UDPListener) (history later : List Event) :
    (history ++ Stop l).count .bufferClose = history.count .bufferClose + 1 ∧
    (history ++ Stop l).count .connClose = history.count .connClose + 1 ∧
    Stop l = [.bufferClose, .connClose] ∧
    lifecycle (history ++ Stop l ++ later) = .stopped := by
  refine ⟨?_, ?_, rfl, ?_⟩
  · simp [Stop, List.count_append]
  · simp [Stop, List.count_append]
  · simp [lifecycle, Stop]

end Listeners

namespace Procdiscovery

/-! ## Association lists -/

theorem string_length_eq_zero (s : String) : s.length = 0 ↔ s = "" := by
  constructor
  · intro h
    apply String.ext
    have : s.data.length = 0 := h
    exact List.length_eq_zero.1 this
  · rintro rfl
    rfl

theorem setInsert_nodup (m : List String) (k : String) (h : m.Nodup) :
    (setInsert m k).Nodup := by
  unfold setInsert
  split
  · exact h
  · rename_i hk
    exact List.nodup_append.2 ⟨h, List.nodup_singleton k, by simpa using hk⟩

theorem mem_setInsert (m : List String) (k c : String) :
    c ∈ setInsert m k ↔ c ∈ m ∨ c = k := by
  unfold setInsert
  split
  · rename_i hk
    constructor
    · exact Or.inl
    · rintro (h | rfl)
      · exact h
      · exact hk
  · simp

theorem mapSet_keys {β : Type} (m : List (String × β)) (k : String) (v : β) :
    (mapSet m k v).map (fun kv => kv.1) =
      if k ∈ m.map (fun kv => kv.1) then m.map (fun kv => kv.1)
      else m.map (fun kv => kv.1) ++ [k] := by
  induction m with
  | nil => simp [mapSet]
  | cons kv m ih =>
    obtain ⟨k1, v1⟩ := kv
    by_cases h : k1 = k
    · subst h
      simp [mapSet]
    · have h2 : ¬ k = k1 := fun e => h e.symm
      simp only [mapSet, h, if_false, List.map_cons, ih, List.mem_cons, h2, false_or]
      split <;> simp

theorem mem_mapSet {β : Type} (m : List (String × β)) (k : String) (v : β)
    (kv : String × β) (h : kv ∈ mapSet m k v) : kv = (k, v) ∨ kv ∈ m := by
  induction m with
  | nil => simpa [mapSet] using h
  | cons x m ih =>
    obtain ⟨k1, v1⟩ := x
    by_cases hk : k1 = k
    · simp only [mapSet, hk, if_true, List.mem_cons] at h
      rcases h with h | h
      · exact Or.inl h
      · exact Or.inr (List.mem_cons_of_mem _ h)
    · simp only [mapSet, hk, if_false, List.mem_cons] at h
      rcases h with h | h
      · exact Or.inr (h ▸ List.mem_cons_self _ _)
      · rcases ih h with h | h
        · exact Or.inl h
        · exact Or.inr (List.mem_cons_of_mem _ h)

theorem mem_of_lookup {β : Type} (m : List (String × β)) (k : String) (v : β)
    (h : m.lookup k = some v) : (k, v) ∈ m := by
  induction m with
  | nil => simp at h
  | cons x m ih =>
    obtain ⟨k1, v1⟩ := x
    by_cases hk : k = k1
    · subst hk
      simp only [List.lookup_cons_self, Option.some.injEq] at h
      subst h
      exact List.mem_cons_self _ _
    · have : (k == k1) = false := by simpa using hk
      simp only [List.lookup_cons, this] at h
      exact List.mem_cons_of_mem _ (ih h)

theorem lookup_mapSet_self {β : Type} (m : List (String × β)) (k : String) (v : β) :
    (mapSet m k v).lookup k = some v := by
  induction m with
  | nil => simp [mapSet]
  | cons x m ih =>
    obtain ⟨k1, v1⟩ := x
    by_cases hk : k1 = k
    · simp [mapSet, hk]
    · have : (k == k1) = false := by simpa using fun e : k = k1 => hk e.symm
      simp [mapSet, hk, List.lookup_cons, this, ih]

theorem mapSet_mapSet {β : Type} (m : List (String × β)) (k : String) (v v1 : β) :
    mapSet (mapSet m k v) k v1 = mapSet m k v1 := by
  induction m with
  | nil => simp [mapSet]
  | cons x m ih =>
    obtain ⟨k1, v2⟩ := x
    by_cases hk : k1 = k
    · simp [mapSet, hk]
    · simp [mapSet, hk, ih]

theorem allCmds_upsert (m : List (String × List IntegrationProcess)) (k : String)
    (ip : IntegrationProcess) :
    (allCmds (mapSet m k ((m.lookup k).getD [] ++ [ip]))).Perm (ip.Cmd :: allCmds m) := by
  induction m with
  | nil => simp [mapSet, allCmds]
  | cons x m ih =>
    obtain ⟨k1, v1⟩ := x
    by_cases hk : k1 = k
    · subst hk
      simp only [mapSet, if_true, List.lookup_cons_self, Option.getD_some, allCmds,
        List.flatMap_cons, List.map_append, List.map_cons, List.map_nil, List.append_assoc,
        List.singleton_append]
      exact List.perm_middle
    · have : (k == k1) = false := by simpa using fun e : k = k1 => hk e.symm
      simp only [mapSet, hk, if_false, List.lookup_cons, this, allCmds, List.flatMap_cons]
      have h2 := List.Perm.append_left (v1.map (fun ip => ip.Cmd)) ih
      exact h2.trans List.perm_middle

end Procdiscovery

namespace Procdiscovery

/-! ## The set of command lines -/

theorem processList_fold (processes : List Process) (acc : List String) (h : acc.Nodup) :
    (processes.foldl
        (fun acc p =>
          match p.Cmdline with
          | .error _ => acc
          | .ok cmd => setInsert acc cmd)
        acc).Nodup ∧
    ∀ c, c ∈ processes.foldl
        (fun acc p =>
          match p.Cmdline with
          | .error _ => acc
          | .ok cmd => setInsert acc cmd)
        acc ↔ c ∈ acc ∨ ∃ p ∈ processes, p.Cmdline = .ok c := by
  induction processes generalizing acc with
  | nil => simp [h]
  | cons p ps ih =>
    simp only [List.foldl_cons]
    cases hp : p.Cmdline with
    | error e =>
      obtain ⟨h1, h2⟩ := ih acc h
      refine ⟨h1, fun c => ?_⟩
      rw [h2 c]
      simp [hp]
    | ok cmd =>
      obtain ⟨h1, h2⟩ := ih (setInsert acc cmd) (setInsert_nodup acc cmd h)
      refine ⟨h1, fun c => ?_⟩
      rw [h2 c, mem_setInsert]
      simp only [List.mem_cons, exists_eq_or_imp, hp, Except.ok.injEq]
      constructor
      · rintro ((h | h) | h)
        · exact Or.inl h
        · exact Or.inr (Or.inl h.symm)
        · exact Or.inr (Or.inr h)
      · rintro (h | h | h)
        · exact Or.inl (Or.inl h)
        · exact Or.inl (Or.inr h.symm)
        · exact Or.inr h

theorem processList_spec (processes : List Process) :
    (processList processes).Nodup ∧
    ∀ c, c ∈ processList processes ↔ ∃ p ∈ processes, p.Cmdline = .ok c := by
  have := processList_fold processes [] List.nodup_nil
  simpa [processList] using this

/-! ## The grouping loop -/

theorem matchProcess_of_named (matcher : String → Integration)
    (m : List (String × List IntegrationProcess)) (c : String)
    (h : ¬ (matcher c).Name.length = 0) :
    matchProcess matcher m c =
      mapSet m (matcher c).Name
        ((m.lookup (matcher c).Name).getD [] ++
          [{ Cmd := c, DisplayName := (matcher c).DisplayName, Name := (matcher c).Name }]) := by
  simp only [matchProcess, beq_iff_eq, h, if_false]
  cases hl : m.lookup (matcher c).Name with
  | some old => simp [hl]
  | none => simp [lookup_mapSet_self, mapSet_mapSet]

theorem matchProcess_grouped (matcher : String → Integration)
    (m : List (String × List IntegrationProcess)) (seen : List String) (c : String)
    (h : Grouped matcher m seen) : Grouped matcher (matchProcess matcher m c) (seen ++ [c]) := by
  obtain ⟨hkeys, hvals, hperm⟩ := h
  by_cases hn : (matcher c).Name.length = 0
  · have : matchProcess matcher m c = m := by simp [matchProcess, hn]
    rw [this]
    refine ⟨hkeys, hvals, ?_⟩
    simpa [List.filter_append, List.filter_cons, hn] using hperm
  · rw [matchProcess_of_named matcher m c hn]
    refine ⟨?_, ?_, ?_⟩
    · rw [mapSet_keys]
      split
      · exact hkeys
      · rename_i hk
        exact List.nodup_append.2 ⟨hkeys, List.nodup_singleton _, by simpa using hk⟩
    · intro kv hkv
      rcases mem_mapSet _ _ _ _ hkv with rfl | hmem
      · refine ⟨by simp, fun e => hn ((string_length_eq_zero _).2 e), ?_⟩
        intro ip hip
        rcases List.mem_append.1 hip with hold | hnew
        · cases hl : m.lookup (matcher c).Name with
          | none => simp [hl] at hold
          | some old =>
            simp only [hl, Option.getD_some] at hold
            exact (hvals _ (mem_of_lookup _ _ _ hl)).2.2 ip hold
        · simp only [List.mem_singleton] at hnew
          subst hnew
          exact ⟨rfl, rfl, rfl⟩
      · exact hvals kv hmem
    · have h1 := allCmds_upsert m (matcher c).Name
        { Cmd := c, DisplayName := (matcher c).DisplayName, Name := (matcher c).Name }
      have h2 : (seen ++ [c]).filter (fun c => !((matcher c).Name.length == 0)) =
          seen.filter (fun c => !((matcher c).Name.length == 0)) ++ [c] := by
        simp [List.filter_append, List.filter_cons, hn]
      rw [h2]
      exact h1.trans ((List.Perm.cons c hperm).trans (List.perm_append_singleton c _).symm)

theorem foldl_grouped (matcher : String → Integration) (keys : List String)
    (m : List (String × List IntegrationProcess)) (seen : List String)
    (h : Grouped matcher m seen) :
    Grouped matcher (keys.foldl (matchProcess matcher) m) (seen ++ keys) := by
  induction keys generalizing m seen with
  | nil => simpa using h
  | cons c cs ih =>
    have := ih _ _ (matchProcess_grouped matcher m seen c h)
    simpa [List.foldl_cons, List.append_assoc] using this

/-- C10: whenever `DiscoverIntegrations` returns without error, whatever the
order in which `range` visits the maps, `Discovered` groups the distinct
readable command lines by integration name: its keys are distinct; every key
is non-empty and maps to a non-empty list whose entries all carry that key as
`Name` (and the display name of their match); no command line occurs twice
over all entries, however many processes share it; and a command line occurs
exactly when some process has it as its readable command line and the matcher
returns a non-empty name for it.  Processes whose command line cannot be read
are skipped. -/
theorem DiscoverIntegrations_groups_by_name (env : Env) (di : DiscoveredIntegrations)
    (hperm : ∀ keys, (env.rangeOrder keys).Perm keys)
    (hok : DiscoverIntegrations env = (di, none)) :
    ∃ matcher processes,
      env.NewDefault = .ok matcher ∧ env.Processes = .ok processes ∧
      (di.Discovered.map (fun kv => kv.1)).Nodup ∧
      (∀ kv ∈ di.Discovered, kv.2 ≠ [] ∧ kv.1 ≠ "" ∧
        ∀ ip ∈ kv.2, ip.Name = kv.1 ∧ ip.Name ≠ "" ∧ (matcher ip.Cmd).Name = kv.1 ∧
          ip.DisplayName = (matcher ip.Cmd).DisplayName) ∧
      (allCmds di.Discovered).Nodup ∧
      (∀ cmd, cmd ∈ allCmds di.Discovered ↔
        (∃ p ∈ processes, p.Cmdline = .ok cmd) ∧ (matcher cmd).Name ≠ "") := by
  unfold DiscoverIntegrations at hok
  cases hm : env.NewDefault with
  | error e => simp [hm] at hok
  | ok matcher =>
    cases hp : env.Processes with
    | error e => simp [hm, hp] at hok
    | ok processes =>
      rcases hr : retrieveIntegrations env with ⟨running, failing, err⟩
      cases err with
      | some e => simp [hm, hp, hr] at hok
      | none =>
        simp only [hm, hp, hr, Prod.mk.injEq, and_true] at hok
        subst hok
        obtain ⟨hnd, hmem⟩ := processList_spec processes
        have hkeys := hperm (processList processes)
        have hg : Grouped matcher
            ((env.rangeOrder (processList processes)).foldl (matchProcess matcher) [])
            (env.rangeOrder (processList processes)) := by
          have := foldl_grouped matcher (env.rangeOrder (processList processes)) [] []
            ⟨by simp, by simp, by simp [allCmds]⟩
          simpa using this
        obtain ⟨h1, h2, h3⟩ := hg
        refine ⟨matcher, processes, rfl, rfl, h1, ?_, ?_, ?_⟩
        · intro kv hkv
          obtain ⟨ha, hb, hc⟩ := h2 kv hkv
          refine ⟨ha, hb, fun ip hip => ?_⟩
          obtain ⟨hc1, hc2, hc3⟩ := hc ip hip
          exact ⟨hc1, hc1 ▸ hb, hc2, hc3⟩
        · exact h3.symm.nodup ((hkeys.symm.nodup hnd).filter _)
        · intro cmd
          rw [h3.mem_iff, List.mem_filter, hkeys.mem_iff, hmem]
          simp [string_length_eq_zero]

/-- C10 on a host with six processes, two sharing a command line and one
unreadable, the maps being visited in reverse insertion order. -/
theorem DiscoverIntegrations_groups_by_name_witness :
    (∀ keys, (sampleEnv.rangeOrder keys).Perm keys) ∧
    DiscoverIntegrations sampleEnv = (sampleDiscovered, none) ∧
    (allCmds sampleDiscovered.Discovered).Nodup :=
  ⟨fun keys => List.reverse_perm keys, by decide,
   (DiscoverIntegrations_groups_by_name sampleEnv sampleDiscovered
      (fun keys => List.reverse_perm keys) (by decide)).elim
     fun _ h => h.elim fun _ h => h.2.2.2.2.1⟩

end Procdiscovery
